import Mathlib

/-
Verification of the figure-extraction preprocessing module
(src/preprocessing/preprocessing_with_image.py).

Modelling conventions:
- Python strings are modelled as `List Char`; f-string interpolation becomes
  list concatenation.
- Python `bytes` are modelled as `List Nat` with every element `< 256`.
- Floating-point page coordinates are modelled as `ℚ`: the only numeric
  operation the code performs on them is scaling by the constant 72, which is
  structural, so nothing about rounding is asserted.
- The external services (the layout-analysis service, the vision model) and
  the rasterisation libraries (PyMuPDF, Pillow) are modelled as abstract
  inputs/oracles; the definitions record exactly the arguments the code hands
  to them.
- Python's `str.find(sub, start)` is modelled by `pyFind` below.
-/

/-- `occursAt needle hay i` holds when `needle` occurs in `hay` as a literal
substring starting at position `i`. -/
def occursAt (needle hay : List Char) (i : Nat) : Bool :=
  needle.isPrefixOf (hay.drop i)

/-- Scanning loop behind `pyFind`: try positions `i, i+1, ...` while fuel
lasts, returning the first position where `needle` occurs. -/
def pyFindGo (hay needle : List Char) : Nat → Nat → Option Nat
  | _, 0 => none
  | i, fuel+1 =>
      if occursAt needle hay i = true then some i
      else pyFindGo hay needle (i+1) fuel

/-- Model of Python's `str.find(sub, start)` for a non-empty `sub`: the least
index `≥ start` at which `sub` occurs in `hay`, or `none` (Python's `-1`). -/
def pyFind (hay needle : List Char) (start : Nat) : Option Nat :=
  pyFindGo hay needle start (hay.length + 1 - start)

/-- A non-empty pattern can only occur strictly inside the text. -/
lemma occursAt_lt_length (needle hay : List Char) (j : Nat) (hne : needle ≠ [])
    (h : occursAt needle hay j = true) : j < hay.length := by
  by_contra hj
  push_neg at hj
  rw [occursAt, List.drop_eq_nil_of_le hj] at h
  cases needle with
  | nil => exact hne rfl
  | cons a t => simp [List.isPrefixOf] at h

lemma pyFindGo_eq_some (hay needle : List Char) :
    ∀ (fuel i k : Nat), pyFindGo hay needle i fuel = some k →
      i ≤ k ∧ k < i + fuel ∧ occursAt needle hay k = true ∧
        ∀ j, i ≤ j → j < k → occursAt needle hay j = false := by
  intro fuel
  induction fuel with
  | zero => intro i k h; simp [pyFindGo] at h
  | succ n ih =>
      intro i k h
      rw [pyFindGo] at h
      by_cases hc : occursAt needle hay i = true
      · rw [if_pos hc] at h
        obtain rfl : i = k := Option.some.inj h
        exact ⟨Nat.le_refl _, by omega, hc, fun j hj1 hj2 => by omega⟩
      · rw [if_neg hc] at h
        obtain ⟨h1, h2, h3, h4⟩ := ih (i+1) k h
        refine ⟨by omega, by omega, h3, ?_⟩
        intro j hj1 hj2
        rcases Nat.eq_or_lt_of_le hj1 with rfl | hlt
        · simpa using hc
        · exact h4 j hlt hj2

lemma pyFindGo_eq_none (hay needle : List Char) :
    ∀ (fuel i : Nat), pyFindGo hay needle i fuel = none →
      ∀ j, i ≤ j → j < i + fuel → occursAt needle hay j = false := by
  intro fuel
  induction fuel with
  | zero => intro i _ j _ _; omega
  | succ n ih =>
      intro i h j hj1 hj2
      rw [pyFindGo] at h
      by_cases hc : occursAt needle hay i = true
      · rw [if_pos hc] at h; cases h
      · rw [if_neg hc] at h
        rcases Nat.eq_or_lt_of_le hj1 with rfl | hlt
        · simpa using hc
        · exact ih (i+1) h j hlt (by omega)

/-- `pyFind` returns `some k` exactly when `k` is the first occurrence of the
(non-empty) needle at or after `start`. -/
lemma pyFind_eq_some_iff (hay needle : List Char) (start k : Nat) (hne : needle ≠ []) :
    pyFind hay needle start = some k ↔
      start ≤ k ∧ occursAt needle hay k = true ∧
        ∀ j, start ≤ j → j < k → occursAt needle hay j = false := by
  constructor
  · intro h
    obtain ⟨h1, _, h3, h4⟩ := pyFindGo_eq_some hay needle _ start k h
    exact ⟨h1, h3, h4⟩
  · rintro ⟨h1, h2, h3⟩
    have hk : k < hay.length := occursAt_lt_length needle hay k hne h2
    cases hf : pyFind hay needle start with
    | none =>
        have := pyFindGo_eq_none hay needle _ start hf k h1 (by omega)
        rw [this] at h2; cases h2
    | some k2 =>
        obtain ⟨g1, _, g3, g4⟩ := pyFindGo_eq_some hay needle _ start k2 hf
        rcases Nat.lt_trichotomy k k2 with hlt | rfl | hgt
        · have := g4 k h1 hlt
          rw [this] at h2; cases h2
        · rfl
        · have := h3 k2 g1 hgt
          rw [this] at g3; cases g3

/-- `pyFind` returns `none` exactly when the (non-empty) needle has no
occurrence at or after `start`. -/
lemma pyFind_eq_none_iff (hay needle : List Char) (start : Nat) (hne : needle ≠ []) :
    pyFind hay needle start = none ↔
      ∀ j, start ≤ j → occursAt needle hay j = false := by
  constructor
  · intro h j hj
    by_cases hjl : j < hay.length
    · exact pyFindGo_eq_none hay needle _ start h j hj (by omega)
    · cases hoc : occursAt needle hay j with
      | false => rfl
      | true => exact absurd (occursAt_lt_length needle hay j hne hoc) hjl
  · intro h
    cases hf : pyFind hay needle start with
    | none => rfl
    | some k =>
        obtain ⟨g1, _, g3, _⟩ := pyFindGo_eq_some hay needle _ start k hf
        rw [h k g1] at g3; cases g3

/-- The figure placeholder marker searched for by `update_figure_description`:
the Python f-string `![](figures/{idx})`. -/
def start_substring (idx : Nat) : List Char :=
  "![](figures/".data ++ (Nat.repr idx).data ++ ")".data

/-- The closing tag searched for by `update_figure_description`. -/
def end_substring : List Char := "</figure>".data

/-- The replacement text: the Python f-string
`<!-- FigureContent="{img_description}" -->`. -/
def new_string (img_description : List Char) : List Char :=
  "<!-- FigureContent=\"".data ++ img_description ++ "\" -->".data

/-- Model of `update_figure_description` (the markdown patcher): find the
first occurrence of the marker, then the next `</figure>` after the marker's
end, and splice the annotation in between; if either search fails, return the
input unchanged. -/
def update_figure_description (md_content img_description : List Char) (idx : Nat) :
    List Char :=
  match pyFind md_content (start_substring idx) 0 with
  | none => md_content
  | some s =>
      match pyFind md_content end_substring (s + (start_substring idx).length) with
      | none => md_content
      | some end_index =>
          md_content.take (s + (start_substring idx).length) ++
            new_string img_description ++ md_content.drop end_index

/-- `firstOccurFrom hay needle start i`: `i` is the first position `≥ start`
at which `needle` occurs in `hay`. -/
def firstOccurFrom (hay needle : List Char) (start i : Nat) : Prop :=
  start ≤ i ∧ occursAt needle hay i = true ∧
    ∀ j < i, start ≤ j → occursAt needle hay j = false

instance (hay needle : List Char) (start i : Nat) :
    Decidable (firstOccurFrom hay needle start i) := by
  unfold firstOccurFrom; infer_instance

lemma start_substring_ne_nil (idx : Nat) : start_substring idx ≠ [] := by
  have h12 : "![](figures/".data = '!' :: "[](figures/".data := rfl
  simp [start_substring, h12]

lemma end_substring_ne_nil : end_substring ≠ [] := by decide

/-- Core behaviour of the patcher when both searches succeed. -/
lemma update_figure_description_of_found (md desc : List Char) (idx s e : Nat)
    (hs : firstOccurFrom md (start_substring idx) 0 s)
    (he : firstOccurFrom md end_substring (s + (start_substring idx).length) e) :
    update_figure_description md desc idx =
      md.take (s + (start_substring idx).length) ++ new_string desc ++ md.drop e := by
  obtain ⟨_, hs2, hs3⟩ := hs
  obtain ⟨he1, he2, he3⟩ := he
  have h1 : pyFind md (start_substring idx) 0 = some s := by
    rw [pyFind_eq_some_iff md _ 0 s (start_substring_ne_nil idx)]
    exact ⟨Nat.zero_le _, hs2, fun j hj1 hj2 => hs3 j hj2 hj1⟩
  have h2 : pyFind md end_substring (s + (start_substring idx).length) = some e := by
    rw [pyFind_eq_some_iff md _ _ e end_substring_ne_nil]
    exact ⟨he1, he2, fun j hj1 hj2 => he3 j hj2 hj1⟩
  simp [update_figure_description, h1, h2]

/-- The patcher is the identity when the marker never occurs. -/
lemma update_figure_description_noop_marker (md desc : List Char) (idx : Nat)
    (h : ∀ j < md.length, occursAt (start_substring idx) md j = false) :
    update_figure_description md desc idx = md := by
  have h1 : pyFind md (start_substring idx) 0 = none := by
    rw [pyFind_eq_none_iff md _ 0 (start_substring_ne_nil idx)]
    intro j _
    by_cases hj : j < md.length
    · exact h j hj
    · cases hoc : occursAt (start_substring idx) md j with
      | false => rfl
      | true =>
          exact absurd (occursAt_lt_length _ md j (start_substring_ne_nil idx) hoc) hj
  simp [update_figure_description, h1]

/-- The patcher is the identity when no closing tag follows the marker. -/
lemma update_figure_description_noop_close (md desc : List Char) (idx s : Nat)
    (hs : firstOccurFrom md (start_substring idx) 0 s)
    (h : ∀ j < md.length, s + (start_substring idx).length ≤ j →
      occursAt end_substring md j = false) :
    update_figure_description md desc idx = md := by
  obtain ⟨_, hs2, hs3⟩ := hs
  have h1 : pyFind md (start_substring idx) 0 = some s := by
    rw [pyFind_eq_some_iff md _ 0 s (start_substring_ne_nil idx)]
    exact ⟨Nat.zero_le _, hs2, fun j hj1 hj2 => hs3 j hj2 hj1⟩
  have h2 : pyFind md end_substring (s + (start_substring idx).length) = none := by
    rw [pyFind_eq_none_iff md _ _ end_substring_ne_nil]
    intro j hj
    by_cases hjl : j < md.length
    · exact h j hjl hj
    · cases hoc : occursAt end_substring md j with
      | false => rfl
      | true => exact absurd (occursAt_lt_length _ md j end_substring_ne_nil hoc) hjl

  simp [update_figure_description, h1, h2]

/-- Claim C1: when the markdown contains the marker `![](figures/idx)` (first
occurrence at `s`) and a `</figure>` tag occurs after the marker's end (first
such occurrence at `e`), `update_figure_description` returns the markdown with
exactly the span between the marker's end and that closing tag replaced by
`<!-- FigureContent="description" -->`, leaving everything before the marker's
end and everything from the closing tag onwards unchanged. -/
theorem update_figure_description_replaces_span (md desc : List Char) (idx s e : Nat)
    (hs : firstOccurFrom md (start_substring idx) 0 s)
    (he : firstOccurFrom md end_substring (s + (start_substring idx).length) e) :
    update_figure_description md desc idx =
      md.take (s + (start_substring idx).length) ++ new_string desc ++ md.drop e :=
  update_figure_description_of_found md desc idx s e hs he

theorem update_figure_description_replaces_span_witness :
    firstOccurFrom "A![](figures/0) body </figure>B".data (start_substring 0) 0 1 ∧
    update_figure_description "A![](figures/0) body </figure>B".data "d".data 0 =
      "A![](figures/0)<!-- FigureContent=\"d\" --></figure>B".data := by
  refine ⟨by decide, ?_⟩
  have h := update_figure_description_replaces_span
    "A![](figures/0) body </figure>B".data "d".data 0 1 21 (by decide) (by decide)
  rw [h]; decide

/-- Claim C2: `update_figure_description` returns its input unchanged when the
marker `![](figures/idx)` does not occur in the markdown, and likewise when no
`</figure>` occurs at or after the position just past the marker's first
occurrence; both cases are total (no error). -/
theorem update_figure_description_noop_cases (md desc : List Char) (idx : Nat) :
    ((∀ j < md.length, occursAt (start_substring idx) md j = false) →
        update_figure_description md desc idx = md) ∧
    (∀ s, firstOccurFrom md (start_substring idx) 0 s →
        (∀ j < md.length, s + (start_substring idx).length ≤ j →
          occursAt end_substring md j = false) →
        update_figure_description md desc idx = md) :=
  ⟨update_figure_description_noop_marker md desc idx,
   fun s hs h => update_figure_description_noop_close md desc idx s hs h⟩

theorem update_figure_description_noop_cases_witness :
    update_figure_description "no figures here".data "d".data 0 = "no figures here".data ∧
    update_figure_description "x![](figures/0)y".data "d".data 0 =
      "x![](figures/0)y".data := by
  constructor
  · exact (update_figure_description_noop_cases "no figures here".data "d".data 0).1
      (by decide)
  · exact (update_figure_description_noop_cases "x![](figures/0)y".data "d".data 0).2 1
      (by decide) (by decide)

/-- Arguments that `crop_image_from_pdf_page` hands to the PyMuPDF renderer:
the page loaded, the clip rectangle built from the scaled box, and the zoom
matrix. The renderer itself is external and is not modelled further. -/
structure PdfRenderRequest where
  page_loaded : Nat
  clip : ℚ × ℚ × ℚ × ℚ
  matrix : ℚ × ℚ
deriving DecidableEq

/-- Model of `crop_image_from_pdf_page`: scale every coordinate of the
bounding box by 72 (the list comprehension `[x * 72 for x in bounding_box]`),
build the clip rectangle from the scaled list, and request rendering with a
`Matrix(300/72, 300/72)` zoom. -/
def crop_image_from_pdf_page (page_number : Nat) (bounding_box : ℚ × ℚ × ℚ × ℚ) :
    PdfRenderRequest :=
  let bbx := [bounding_box.1, bounding_box.2.1, bounding_box.2.2.1,
    bounding_box.2.2.2].map (fun x => x * 72)
  ⟨page_number, (bbx.getD 0 0, bbx.getD 1 0, bbx.getD 2 0, bbx.getD 3 0),
    (300/72, 300/72)⟩

/-- What `crop_image_from_image` does with the opened Pillow image: which
frame ends up being cropped, whether a seek-and-copy happened, and the box
passed to `img.crop`. Opening the file yields frame 0; `img.seek` selects
another frame. -/
structure ImageCropResult where
  frame : Nat
  copied : Bool
  box : ℚ × ℚ × ℚ × ℚ
deriving DecidableEq

/-- Model of `crop_image_from_image`: the code seeks to `page_number` and
copies that frame exactly when the opened image's `format` attribute is the
string `"TIFF"`; in every other case it crops the opened image (frame 0)
directly. The crop box is passed through unmodified in both cases. -/
def crop_image_from_image (format : String) (page_number : Nat)
    (bounding_box : ℚ × ℚ × ℚ × ℚ) : ImageCropResult :=
  if format = "TIFF" then ⟨page_number, true, bounding_box⟩
  else ⟨0, false, bounding_box⟩

/-- Claim C3: the PDF path passes the clip rectangle `(72l, 72t, 72r, 72b)`
together with a `300/72` scale matrix, while the raster-image path crops with
the box coordinates unmodified. -/
theorem crop_box_scaling (box : ℚ × ℚ × ℚ × ℚ) (p : Nat) (format : String) :
    (crop_image_from_pdf_page p box).clip =
      (72 * box.1, 72 * box.2.1, 72 * box.2.2.1, 72 * box.2.2.2) ∧
    (crop_image_from_pdf_page p box).matrix = (300/72, 300/72) ∧
    (crop_image_from_image format p box).box = box := by
  refine ⟨?_, rfl, ?_⟩
  · simp [crop_image_from_pdf_page, mul_comm]
  · unfold crop_image_from_image
    split <;> rfl

/-- Spec-side definition, following the spec's words: the raster branch is
described as handling "TIFF or other multi-frame raster formats" and seeking
"if the format is multi-frame". The set of multi-frame raster formats is not
defined by this repository's code, so it is written out here from the spec's
phrase: TIFF together with the other common multi-frame raster formats. -/
def isMultiFrameFormat (format : String) : Bool :=
  ["TIFF", "GIF", "WEBP", "MPO"].contains format

/-- Counterexample to claim C9 as stated: GIF is a multi-frame raster format,
yet `crop_image_from_image` with format `"GIF"` and page 1 does not seek (it
crops frame 0 of the opened image, with no copy). The code's test is
`img.format == "TIFF"`, not "is multi-frame". -/
theorem crop_image_gif_not_seeked :
    isMultiFrameFormat "GIF" = true ∧
    (crop_image_from_image "GIF" 1 (0, 0, 1, 1)).frame = 0 ∧
    (crop_image_from_image "GIF" 1 (0, 0, 1, 1)).copied = false := by
  refine ⟨by decide, ?_, ?_⟩ <;> rfl

/-- Claim C9 (amended): `crop_image_from_image` seeks to the given page/frame
and copies it before cropping exactly when the image format is the string
`"TIFF"`; for every other format (multi-frame or not) it crops the opened
image (frame 0) directly, and in both cases the box is passed unmodified. -/
theorem crop_image_seek_iff_tiff (format : String) (page : Nat)
    (box : ℚ × ℚ × ℚ × ℚ) :
    (format = "TIFF" →
        crop_image_from_image format page box = ⟨page, true, box⟩) ∧
    (format ≠ "TIFF" →
        crop_image_from_image format page box = ⟨0, false, box⟩) := by
  constructor
  · intro h; simp [crop_image_from_image, h]
  · intro h; simp [crop_image_from_image, h]

theorem crop_image_seek_iff_tiff_witness :
    crop_image_from_image "TIFF" 3 (0, 0, 1, 1) = ⟨3, true, (0, 0, 1, 1)⟩ ∧
    crop_image_from_image "GIF" 3 (0, 0, 1, 1) = ⟨0, false, (0, 0, 1, 1)⟩ :=
  ⟨(crop_image_seek_iff_tiff "TIFF" 3 (0, 0, 1, 1)).1 rfl,
   (crop_image_seek_iff_tiff "GIF" 3 (0, 0, 1, 1)).2 (by decide)⟩

/-- The base64 alphabet, in index order. -/
def b64Alphabet : List Char :=
  "ABCDEFGHIJKLMNOPQRSTUVWXYZabcdefghijklmnopqrstuvwxyz0123456789+/".data

/-- Character for a 6-bit value. -/
def sextetChar (n : Nat) : Char := b64Alphabet.getD n '?'

/-- Model of `base64.b64encode` on a byte list: groups of three bytes become
four alphabet characters; a trailing group of one or two bytes is padded with
`=`. -/
def b64encode : List Nat → List Char
  | [] => []
  | [a] => [sextetChar (a / 4), sextetChar (a % 4 * 16), '=', '=']
  | [a, b] => [sextetChar (a / 4), sextetChar (a % 4 * 16 + b / 16),
      sextetChar (b % 16 * 4), '=']
  | a :: b :: c :: rest =>
      sextetChar (a / 4) :: sextetChar (a % 4 * 16 + b / 16) ::
        sextetChar (b % 16 * 4 + c / 64) :: sextetChar (c % 64) :: b64encode rest

/-- The 6-bit value of a base64 alphabet character, `none` for any other
character (including the padding `=`). -/
def sextetOf (c : Char) : Option Nat :=
  let i := b64Alphabet.indexOf c
  if i < 64 then some i else none

/-- Base64 decoder: four characters at a time, with `=` padding allowed only
at the end. Returns `none` for input that is not well-formed base64. -/
def b64decode : List Char → Option (List Nat)
  | [] => some []
  | c1 :: c2 :: c3 :: c4 :: rest =>
      match sextetOf c1, sextetOf c2 with
      | some s1, some s2 =>
          if c3 = '=' then
            if c4 = '=' then
              if rest = [] then some [s1 * 4 + s2 / 16] else none
            else none
          else
            match sextetOf c3 with
            | some s3 =>
                if c4 = '=' then
                  if rest = [] then
                    some [s1 * 4 + s2 / 16, s2 % 16 * 16 + s3 / 4]
                  else none
                else
                  match sextetOf c4 with
                  | some s4 =>
                      match b64decode rest with
                      | some tail =>
                          some ((s1 * 4 + s2 / 16) :: (s2 % 16 * 16 + s3 / 4) ::
                            (s3 % 4 * 64 + s4) :: tail)
                      | none => none
                  | none => none
            | none => none
      | _, _ => none
  | _ => none

lemma sextetOf_sextetChar : ∀ n < 64, sextetOf (sextetChar n) = some n := by decide

lemma sextetChar_ne_pad : ∀ n < 64, sextetChar n ≠ '=' := by decide

/-- Decoding inverts encoding on genuine byte lists. -/
lemma b64decode_b64encode :
    ∀ (B : List Nat), (∀ x ∈ B, x < 256) → b64decode (b64encode B) = some B := by
  intro B
  induction B using b64encode.induct with
  | case1 => intro _; rfl
  | case2 a =>
      intro hB
      have ha : a < 256 := hB a (by simp)
      have e1 := sextetOf_sextetChar (a / 4) (by omega)
      have e2 := sextetOf_sextetChar (a % 4 * 16) (by omega)
      simp [b64encode, b64decode, e1, e2]
      omega
  | case3 a b =>
      intro hB
      have ha : a < 256 := hB a (by simp)
      have hb : b < 256 := hB b (by simp)
      have e1 := sextetOf_sextetChar (a / 4) (by omega)
      have e2 := sextetOf_sextetChar (a % 4 * 16 + b / 16) (by omega)
      have e3 := sextetOf_sextetChar (b % 16 * 4) (by omega)
      have n3 := sextetChar_ne_pad (b % 16 * 4) (by omega)
      simp [b64encode, b64decode, e1, e2, e3, n3]
      omega
  | case4 a b c rest ih =>
      intro hB
      have ha : a < 256 := hB a (by simp)
      have hb : b < 256 := hB b (by simp)
      have hc : c < 256 := hB c (by simp)
      have hrest : ∀ x ∈ rest, x < 256 := fun x hx => hB x (by simp [hx])
      have e1 := sextetOf_sextetChar (a / 4) (by omega)
      have e2 := sextetOf_sextetChar (a % 4 * 16 + b / 16) (by omega)
      have e3 := sextetOf_sextetChar (b % 16 * 4 + c / 64) (by omega)
      have e4 := sextetOf_sextetChar (c % 64) (by omega)
      have n3 := sextetChar_ne_pad (b % 16 * 4 + c / 64) (by omega)
      have n4 := sextetChar_ne_pad (c % 64) (by omega)
      simp [b64encode, b64decode, e1, e2, e3, e4, n3, n4, ih hrest]
      omega

/-- Model of Python's `mimetypes.guess_type` restricted to the file
extensions this pipeline can encounter (the stdlib table is external to the
repository; only the extension-based lookup the code relies on is modelled).
Unknown extensions yield `none`, as `guess_type` does. -/
def guess_type (path : List Char) : Option (List Char) :=
  if ".png".data.isSuffixOf path then some "image/png".data
  else if ".jpg".data.isSuffixOf path then some "image/jpeg".data
  else if ".jpeg".data.isSuffixOf path then some "image/jpeg".data
  else if ".pdf".data.isSuffixOf path then some "application/pdf".data
  else if ".tif".data.isSuffixOf path then some "image/tiff".data
  else if ".tiff".data.isSuffixOf path then some "image/tiff".data
  else none

/-- Model of `local_image_to_data_url`: guess the mime type from the path
(defaulting to `application/octet-stream`), base64-encode the file's bytes,
and build `data:<mime>;base64,<payload>`. -/
def local_image_to_data_url (image_path : List Char) (contents : List Nat) :
    List Char :=
  let mime_type := (guess_type image_path).getD "application/octet-stream".data
  "data:".data ++ mime_type ++ ";base64,".data ++ b64encode contents

/-- Claim C7: for a file with bytes `B` whose path ends in `.png`,
`local_image_to_data_url` returns `data:image/png;base64,` followed by a
valid base64 encoding that decodes back to exactly `B`; when the mime type
cannot be guessed, the prefix uses `application/octet-stream` instead. -/
theorem local_image_to_data_url_spec (path : List Char) (B : List Nat)
    (hB : ∀ x ∈ B, x < 256) :
    (".png".data.isSuffixOf path = true →
        local_image_to_data_url path B = "data:image/png;base64,".data ++ b64encode B ∧
        b64decode (b64encode B) = some B) ∧
    (guess_type path = none →
        local_image_to_data_url path B =
          "data:application/octet-stream;base64,".data ++ b64encode B) := by
  constructor
  · intro h
    refine ⟨?_, b64decode_b64encode B hB⟩
    have hg : guess_type path = some "image/png".data := by simp [guess_type, h]
    have hpre : "data:".data ++ "image/png".data ++ ";base64,".data =
        "data:image/png;base64,".data := by decide
    simp only [local_image_to_data_url, hg, Option.getD_some]
    rw [hpre]
  · intro h
    have hpre : "data:".data ++ "application/octet-stream".data ++ ";base64,".data =
        "data:application/octet-stream;base64,".data := by decide
    simp only [local_image_to_data_url, h, Option.getD_none]
    rw [hpre]

theorem local_image_to_data_url_spec_witness :
    local_image_to_data_url "img.png".data [77, 97] = "data:image/png;base64,TWE=".data ∧
    b64decode (b64encode [77, 97]) = some [77, 97] ∧
    local_image_to_data_url "img.xyz".data [77] =
      "data:application/octet-stream;base64,TQ==".data := by
  have h1 := (local_image_to_data_url_spec "img.png".data [77, 97] (by decide)).1
    (by decide)
  have h2 := (local_image_to_data_url_spec "img.xyz".data [77] (by decide)).2
    (by decide)
  refine ⟨?_, h1.2, ?_⟩
  · rw [h1.1]; decide
  · rw [h2]; decide

/-- The text part of the user message built by `understand_image_with_gpt`:
the Python conditional expression chooses the caption-bearing f-string when
`caption` is truthy (non-empty) and the plain prompt otherwise. -/
def understand_image_text (caption : List Char) : List Char :=
  if caption ≠ [] then
    "Describe this image (note: it has image caption: ".data ++ caption ++ "):".data
  else "Describe this image:".data

/-- Claim C8: the user-message text equals
`Describe this image (note: it has image caption: <caption>):` with the
caption interpolated when the caption is non-empty, and
`Describe this image:` when the caption is empty. -/
theorem understand_image_text_spec (caption : List Char) :
    (caption ≠ [] → understand_image_text caption =
        "Describe this image (note: it has image caption: ".data ++ caption ++
          "):".data) ∧
    (caption = [] → understand_image_text caption = "Describe this image:".data) := by
  constructor
  · intro h; simp [understand_image_text, h]
  · intro h; simp [understand_image_text, h]

theorem understand_image_text_spec_witness :
    understand_image_text "a cat".data =
      "Describe this image (note: it has image caption: a cat):".data ∧
    understand_image_text [] = "Describe this image:".data := by
  have h1 := (understand_image_text_spec "a cat".data).1 (by decide)
  have h2 := (understand_image_text_spec []).2 rfl
  refine ⟨?_, h2⟩
  rw [h1]; decide

/-- One bounding region of a figure or caption, as returned by the layout
analyzer: a page number and a polygon given as a flat coordinate list. The
coordinate type is a parameter (Python is dynamically typed; the service
returns floats, modelled as `ℚ` when concreteness matters). -/
structure BoundingRegion (α : Type) where
  page_number : Nat
  polygon : List α
deriving DecidableEq

/-- A figure caption: its text and its own bounding regions. -/
structure Caption (α : Type) where
  content : List Char
  bounding_regions : List (BoundingRegion α)
deriving DecidableEq

/-- A figure record from the analyzer: an optional caption and the figure's
bounding regions. (The figure's content spans are only printed by the code
and play no role in the claims, so they are omitted.) -/
structure Figure (α : Type) where
  caption : Option (Caption α)
  bounding_regions : List (BoundingRegion α)

/-- The bounding box the loop builds from a region's polygon: coordinates at
positions 0, 1, 4 and 5 (left, top, right, bottom). Out-of-range positions
(a polygon shorter than the 8 numbers the analyzer guarantees) fall back to
`default`; every theorem below that touches the box assumes the polygon has
at least 6 coordinates, matching the Python code, which would raise
`IndexError` otherwise. -/
def regionBox {α : Type} [Inhabited α] (r : BoundingRegion α) : α × α × α × α :=
  (r.polygon.getD 0 default, r.polygon.getD 1 default,
   r.polygon.getD 4 default, r.polygon.getD 5 default)

/-- One iteration of the region loop body: everything `analyze_layout` does
for a region it processes — the figure index it is working on, the region,
the bounding box passed to `crop_image_from_file`, and the caption argument
passed to `understand_image_with_gpt`. -/
structure RegionCall (α : Type) where
  idx : Nat
  region : BoundingRegion α
  box : α × α × α × α
  caption : List Char
deriving DecidableEq

/-- The region loop of `analyze_layout` for one figure: walk the figure's
bounding regions in order, skipping any region that is a member of the
caption's bounding-region list (`if region not in caption_region`), and for
each processed region record the call and append the oracle's description to
the accumulator. `describe` abstracts the externally produced description
(crop + save + `understand_image_with_gpt`). In the no-caption branch the
code runs the same loop with no membership test and an empty caption, which
is the `captionRegions = []`, `captionText = []` instance of this function. -/
def processRegionsWith {α : Type} [DecidableEq α] [Inhabited α]
    (describe : BoundingRegion α → List Char → List Char) (idx : Nat)
    (captionText : List Char) (captionRegions : List (BoundingRegion α)) :
    List (BoundingRegion α) → List Char × List (RegionCall α)
  | [] => ([], [])
  | r :: rest =>
      if r ∈ captionRegions then
        processRegionsWith describe idx captionText captionRegions rest
      else
        let rec_result := processRegionsWith describe idx captionText captionRegions rest
        (describe r captionText ++ rec_result.1,
          ⟨idx, r, regionBox r, captionText⟩ :: rec_result.2)

/-- The per-figure body of `analyze_layout`: dispatch on the presence of a
caption. With a caption, regions in the caption's own bounding-region list
are skipped and the caption text is passed to the vision call; without one,
every region is processed with the empty caption string. Returns the
accumulated `img_description` and the region calls made. -/
def processFigure {α : Type} [DecidableEq α] [Inhabited α]
    (describe : BoundingRegion α → List Char → List Char) (idx : Nat)
    (fig : Figure α) : List Char × List (RegionCall α) :=
  match fig.caption with
  | some cap =>
      processRegionsWith describe idx cap.content cap.bounding_regions
        fig.bounding_regions
  | none => processRegionsWith describe idx [] [] fig.bounding_regions

/-- The figure loop of `analyze_layout` starting at figure index `idx`
(`enumerate(result.figures)` starts it at 0): process each figure, then patch
the markdown with the accumulated description at that figure's index, and
continue with the next index. Returns the final markdown and every region
call made, in order. The trailing heading normalisation
(`convert_markdown_headings`) is an external collaborator applied after this
loop and is outside the claims. -/
def analyzeFiguresFrom {α : Type} [DecidableEq α] [Inhabited α]
    (describe : BoundingRegion α → List Char → List Char) (md : List Char)
    (idx : Nat) : List (Figure α) → List Char × List (RegionCall α)
  | [] => (md, [])
  | fig :: rest =>
      let fr := processFigure describe idx fig
      let md1 := update_figure_description md fr.1 idx
      let tail_result := analyzeFiguresFrom describe md1 (idx + 1) rest
      (tail_result.1, fr.2 ++ tail_result.2)

/-- The whole figure phase of `analyze_layout` on the analyzer's output. -/
def analyze_layout_figures {α : Type} [DecidableEq α] [Inhabited α]
    (describe : BoundingRegion α → List Char → List Char) (md : List Char)
    (figures : List (Figure α)) : List Char × List (RegionCall α) :=
  analyzeFiguresFrom describe md 0 figures

lemma processRegionsWith_no_skip {α : Type} [DecidableEq α] [Inhabited α]
    (describe : BoundingRegion α → List Char → List Char) (idx : Nat)
    (regions : List (BoundingRegion α)) :
    processRegionsWith describe idx [] [] regions =
      ((regions.map (fun r => describe r [])).flatten,
        regions.map (fun r => ⟨idx, r, regionBox r, []⟩)) := by
  induction regions with
  | nil => rfl
  | cons r rest ih => simp [processRegionsWith, ih]

lemma processRegionsWith_filter {α : Type} [DecidableEq α] [Inhabited α]
    (describe : BoundingRegion α → List Char → List Char) (idx : Nat)
    (captionText : List Char) (captionRegions : List (BoundingRegion α))
    (regions : List (BoundingRegion α)) :
    (processRegionsWith describe idx captionText captionRegions regions).2 =
      (regions.filter (fun r => decide (r ∉ captionRegions))).map
        (fun r => ⟨idx, r, regionBox r, captionText⟩) := by
  induction regions with
  | nil => rfl
  | cons r rest ih =>
      by_cases hr : r ∈ captionRegions
      · simp [processRegionsWith, hr, List.filter, ih]
      · simp [processRegionsWith, hr, List.filter, ih]

lemma processFigure_calls_idx {α : Type} [DecidableEq α] [Inhabited α]
    (describe : BoundingRegion α → List Char → List Char) (idx : Nat)
    (fig : Figure α) :
    ∀ c ∈ (processFigure describe idx fig).2, c.idx = idx := by
  intro c hc
  have key : ∀ (ct : List Char) (cr regions : List (BoundingRegion α)),
      c ∈ (processRegionsWith describe idx ct cr regions).2 → c.idx = idx := by
    intro ct cr regions
    induction regions with
    | nil => intro h; cases h
    | cons r rest ih =>
        intro h
        by_cases hr : r ∈ cr
        · rw [processRegionsWith, if_pos hr] at h
          exact ih h
        · rw [processRegionsWith, if_neg hr] at h
          rcases List.mem_cons.mp h with rfl | h2
          · rfl
          · exact ih h2
  unfold processFigure at hc
  cases hcap : fig.caption with
  | none => rw [hcap] at hc; exact key [] [] fig.bounding_regions hc
  | some cap =>
      rw [hcap] at hc
      exact key cap.content cap.bounding_regions fig.bounding_regions hc

/-- The calls of the figure loop, restricted to figure index `idx0 + i`, are
exactly the calls of `processFigure` on the i-th figure. -/
lemma analyzeFiguresFrom_calls_at {α : Type} [DecidableEq α] [Inhabited α]
    (describe : BoundingRegion α → List Char → List Char) :
    ∀ (figs : List (Figure α)) (md : List Char) (idx0 i : Nat) (fig : Figure α),
      figs.get? i = some fig →
      ((analyzeFiguresFrom describe md idx0 figs).2).filter
          (fun c => c.idx == idx0 + i) =
        (processFigure describe (idx0 + i) fig).2 := by
  intro figs
  induction figs with
  | nil => intro md idx0 i fig h; cases h
  | cons f rest ih =>
      intro md idx0 i fig h
      rw [analyzeFiguresFrom]
      rw [List.filter_append]
      cases i with
      | zero =>
          obtain rfl : f = fig := Option.some.inj h
          have h1 : (processFigure describe idx0 f).2.filter
              (fun c => c.idx == idx0 + 0) = (processFigure describe idx0 f).2 := by
            apply List.filter_eq_self.mpr
            intro c hc
            simp [processFigure_calls_idx describe idx0 f c hc]
          have h2 : ((analyzeFiguresFrom describe
              (update_figure_description md (processFigure describe idx0 f).1 idx0)
              (idx0 + 1) rest).2).filter (fun c => c.idx == idx0 + 0) = [] := by
            apply List.filter_eq_nil_iff.mpr
            intro c hc
            have hge : idx0 + 1 ≤ c.idx := by
              clear h1 h
              revert hc
              generalize (update_figure_description md
                (processFigure describe idx0 f).1 idx0) = md1
              have key : ∀ (rs : List (Figure α)) (m : List Char) (j : Nat),
                  c ∈ (analyzeFiguresFrom describe m j rs).2 → j ≤ c.idx := by
                intro rs
                induction rs with
                | nil => intro m j hc; cases hc
                | cons g grest ihg =>
                    intro m j hc
                    rw [analyzeFiguresFrom] at hc
                    rcases List.mem_append.mp hc with h2 | h2
                    · rw [processFigure_calls_idx describe j g c h2]
                    · exact Nat.le_of_succ_le (ihg _ _ h2)
              exact key rest _ (idx0 + 1)
            simp only [beq_iff_eq]
            omega
          rw [h1, h2, List.append_nil]
          rfl
      | succ n =>
          have h1 : (processFigure describe idx0 f).2.filter
              (fun c => c.idx == idx0 + (n + 1)) = [] := by
            apply List.filter_eq_nil_iff.mpr
            intro c hc
            have := processFigure_calls_idx describe idx0 f c hc
            simp only [beq_iff_eq]
            omega
          have h2 := ih (update_figure_description md
            (processFigure describe idx0 f).1 idx0) (idx0 + 1) n fig h
          rw [h1, List.nil_append]
          have harith : idx0 + (n + 1) = idx0 + 1 + n := by omega
          rw [harith]
          exact h2

lemma processRegionsWith_box_shape {α : Type} [DecidableEq α] [Inhabited α]
    (describe : BoundingRegion α → List Char → List Char) (idx : Nat)
    (captionText : List Char) (captionRegions : List (BoundingRegion α)) :
    ∀ (regions : List (BoundingRegion α)),
      ∀ c ∈ (processRegionsWith describe idx captionText captionRegions regions).2,
        c.box = regionBox c.region := by
  intro regions
  induction regions with
  | nil => intro c hc; cases hc
  | cons r rest ih =>
      intro c hc
      by_cases hr : r ∈ captionRegions
      · rw [processRegionsWith, if_pos hr] at hc
        exact ih c hc
      · simp only [processRegionsWith, if_neg hr] at hc
        rcases List.mem_cons.mp hc with rfl | h2
        · rfl
        · exact ih c h2

lemma processFigure_box_shape {α : Type} [DecidableEq α] [Inhabited α]
    (describe : BoundingRegion α → List Char → List Char) (idx : Nat)
    (fig : Figure α) :
    ∀ c ∈ (processFigure describe idx fig).2, c.box = regionBox c.region := by
  intro c hc
  unfold processFigure at hc
  cases hcap : fig.caption with
  | none =>
      rw [hcap] at hc
      exact processRegionsWith_box_shape describe idx [] [] fig.bounding_regions c hc
  | some cap =>
      rw [hcap] at hc
      exact processRegionsWith_box_shape describe idx cap.content cap.bounding_regions
        fig.bounding_regions c hc

lemma analyzeFiguresFrom_box_shape {α : Type} [DecidableEq α] [Inhabited α]
    (describe : BoundingRegion α → List Char → List Char) :
    ∀ (figs : List (Figure α)) (md : List Char) (idx : Nat),
      ∀ c ∈ (analyzeFiguresFrom describe md idx figs).2,
        c.box = regionBox c.region := by
  intro figs
  induction figs with
  | nil => intro md idx c hc; cases hc
  | cons f rest ih =>
      intro md idx c hc
      rw [analyzeFiguresFrom] at hc
      rcases List.mem_append.mp hc with h1 | h1
      · exact processFigure_box_shape describe idx f c h1
      · exact ih _ (idx + 1) c h1

lemma processRegionsWith_all_skipped {α : Type} [DecidableEq α] [Inhabited α]
    (describe : BoundingRegion α → List Char → List Char) (idx : Nat)
    (captionText : List Char) (captionRegions : List (BoundingRegion α)) :
    ∀ (regions : List (BoundingRegion α)),
      (∀ r ∈ regions, r ∈ captionRegions) →
      processRegionsWith describe idx captionText captionRegions regions = ([], []) := by
  intro regions
  induction regions with
  | nil => intro _; rfl
  | cons r rest ih =>
      intro h
      have hr : r ∈ captionRegions := h r (List.mem_cons_self r rest)
      rw [processRegionsWith, if_pos hr]
      exact ih (fun x hx => h x (List.mem_cons_of_mem r hx))

lemma getD_default_of_lt {α : Type} [Inhabited α] (l : List α) (i : Nat)
    (h : i < l.length) : l.getD i default = l.get ⟨i, h⟩ := by
  rw [List.getD_eq_getElem l default h]
  rfl

/-- Claim C4: for a figure with no caption, the pipeline's region loop issues
exactly one vision-description call per bounding region of that figure, in
order, each with the empty string as the caption argument (recorded in the
`caption` field of the call). -/
theorem analyze_layout_no_caption_calls {α : Type} [DecidableEq α] [Inhabited α]
    (describe : BoundingRegion α → List Char → List Char) (md : List Char)
    (figs : List (Figure α)) (i : Nat) (fig : Figure α)
    (hget : figs.get? i = some fig) (hcap : fig.caption = none) :
    ((analyze_layout_figures describe md figs).2).filter (fun c => c.idx == i) =
      fig.bounding_regions.map (fun r => ⟨i, r, regionBox r, []⟩) := by
  have h := analyzeFiguresFrom_calls_at describe figs md 0 i fig hget
  simp only [Nat.zero_add] at h
  rw [analyze_layout_figures, h]
  simp only [processFigure, hcap, processRegionsWith_no_skip]

theorem analyze_layout_no_caption_calls_witness :
    ((analyze_layout_figures (fun _ _ => ['D']) []
        [(⟨none, [⟨1, [0, 0, 2, 0, 2, 2, 0, 2]⟩]⟩ : Figure ℕ)]).2).filter
        (fun c => c.idx == 0) =
      [⟨0, ⟨1, [0, 0, 2, 0, 2, 2, 0, 2]⟩, (0, 0, 2, 2), []⟩] := by
  have h := analyze_layout_no_caption_calls (fun _ _ => ['D']) []
    [(⟨none, [⟨1, [0, 0, 2, 0, 2, 2, 0, 2]⟩]⟩ : Figure ℕ)] 0
    ⟨none, [⟨1, [0, 0, 2, 0, 2, 2, 0, 2]⟩]⟩ rfl rfl
  rw [h]
  decide

/-- Claim C5: for a figure with a caption, only the bounding regions that are
not members of the caption's bounding-region list are processed (cropped,
saved, described); every region equal to one of the caption's regions is
skipped entirely, so no call for it appears anywhere in the pipeline's call
trace. -/
theorem analyze_layout_caption_regions_excluded {α : Type} [DecidableEq α]
    [Inhabited α] (describe : BoundingRegion α → List Char → List Char)
    (md : List Char) (figs : List (Figure α)) (i : Nat) (fig : Figure α)
    (cap : Caption α) (hget : figs.get? i = some fig)
    (hcap : fig.caption = some cap) :
    ((analyze_layout_figures describe md figs).2).filter (fun c => c.idx == i) =
      (fig.bounding_regions.filter (fun r => decide (r ∉ cap.bounding_regions))).map
        (fun r => ⟨i, r, regionBox r, cap.content⟩) ∧
    ∀ c ∈ (analyze_layout_figures describe md figs).2,
      c.idx = i → c.region ∉ cap.bounding_regions := by
  have h := analyzeFiguresFrom_calls_at describe figs md 0 i fig hget
  simp only [Nat.zero_add] at h
  have h1 : ((analyze_layout_figures describe md figs).2).filter
      (fun c => c.idx == i) =
      (fig.bounding_regions.filter (fun r => decide (r ∉ cap.bounding_regions))).map
        (fun r => ⟨i, r, regionBox r, cap.content⟩) := by
    rw [analyze_layout_figures, h]
    simp only [processFigure, hcap, processRegionsWith_filter]
  refine ⟨h1, ?_⟩
  intro c hc hidx
  have hcf : c ∈ ((analyze_layout_figures describe md figs).2).filter
      (fun c => c.idx == i) := List.mem_filter.mpr ⟨hc, by simp [hidx]⟩
  rw [h1] at hcf
  obtain ⟨r, hr, rfl⟩ := List.mem_map.mp hcf
  have := (List.mem_filter.mp hr).2
  simpa using this

theorem analyze_layout_caption_regions_excluded_witness :
    ((analyze_layout_figures (fun _ _ => ['D']) []
        [(⟨some ⟨"cap".data, [⟨1, [9, 9, 9, 9, 9, 9, 9, 9]⟩]⟩,
          [⟨1, [9, 9, 9, 9, 9, 9, 9, 9]⟩, ⟨1, [0, 0, 2, 0, 2, 2, 0, 2]⟩]⟩ :
          Figure ℕ)]).2).filter (fun c => c.idx == 0) =
      [⟨0, ⟨1, [0, 0, 2, 0, 2, 2, 0, 2]⟩, (0, 0, 2, 2), "cap".data⟩] ∧
    (⟨0, ⟨1, [0, 0, 2, 0, 2, 2, 0, 2]⟩, (0, 0, 2, 2), "cap".data⟩ :
        RegionCall ℕ).region ∉ [(⟨1, [9, 9, 9, 9, 9, 9, 9, 9]⟩ : BoundingRegion ℕ)] := by
  have h := analyze_layout_caption_regions_excluded (fun _ _ => ['D']) []
    [(⟨some ⟨"cap".data, [⟨1, [9, 9, 9, 9, 9, 9, 9, 9]⟩]⟩,
      [⟨1, [9, 9, 9, 9, 9, 9, 9, 9]⟩, ⟨1, [0, 0, 2, 0, 2, 2, 0, 2]⟩]⟩ : Figure ℕ)]
    0 ⟨some ⟨"cap".data, [⟨1, [9, 9, 9, 9, 9, 9, 9, 9]⟩]⟩,
      [⟨1, [9, 9, 9, 9, 9, 9, 9, 9]⟩, ⟨1, [0, 0, 2, 0, 2, 2, 0, 2]⟩]⟩
    ⟨"cap".data, [⟨1, [9, 9, 9, 9, 9, 9, 9, 9]⟩]⟩ rfl rfl
  refine ⟨?_, ?_⟩
  · rw [h.1]; decide
  · exact h.2 ⟨0, ⟨1, [0, 0, 2, 0, 2, 2, 0, 2]⟩, (0, 0, 2, 2), "cap".data⟩
      (by decide) rfl

/-- Claim C6: every bounding box the pipeline builds for a processed region
is the 4-tuple of the region polygon's coordinates at positions 0, 1, 4
and 5 (left, top, right, bottom) — the axis-aligned box implied by the
polygon's first and third vertices. -/
theorem analyze_layout_box_positions {α : Type} [DecidableEq α] [Inhabited α]
    (describe : BoundingRegion α → List Char → List Char) (md : List Char)
    (figs : List (Figure α)) :
    ∀ c ∈ (analyze_layout_figures describe md figs).2,
      ∀ h6 : 6 ≤ c.region.polygon.length,
        c.box = (c.region.polygon.get ⟨0, by omega⟩, c.region.polygon.get ⟨1, by omega⟩,
          c.region.polygon.get ⟨4, by omega⟩, c.region.polygon.get ⟨5, by omega⟩) := by
  intro c hc h6
  have hbox := analyzeFiguresFrom_box_shape describe figs md 0 c hc
  rw [hbox, regionBox,
    getD_default_of_lt c.region.polygon 0 (by omega),
    getD_default_of_lt c.region.polygon 1 (by omega),
    getD_default_of_lt c.region.polygon 4 (by omega),
    getD_default_of_lt c.region.polygon 5 (by omega)]

theorem analyze_layout_box_positions_witness :
    (⟨0, ⟨1, [1, 2, 3, 4, 5, 6, 7, 8]⟩, (1, 2, 5, 6), []⟩ : RegionCall ℕ) ∈
      (analyze_layout_figures (fun _ _ => ['D']) []
        [(⟨none, [⟨1, [1, 2, 3, 4, 5, 6, 7, 8]⟩]⟩ : Figure ℕ)]).2 ∧
    (⟨0, ⟨1, [1, 2, 3, 4, 5, 6, 7, 8]⟩, (1, 2, 5, 6), []⟩ : RegionCall ℕ).box =
      ([1, 2, 3, 4, 5, 6, 7, 8].get ⟨0, by decide⟩,
       [1, 2, 3, 4, 5, 6, 7, 8].get ⟨1, by decide⟩,
       [1, 2, 3, 4, 5, 6, 7, 8].get ⟨4, by decide⟩,
       [1, 2, 3, 4, 5, 6, 7, 8].get ⟨5, by decide⟩) := by
  refine ⟨by decide, ?_⟩
  exact analyze_layout_box_positions (fun _ _ => ['D']) []
    [(⟨none, [⟨1, [1, 2, 3, 4, 5, 6, 7, 8]⟩]⟩ : Figure ℕ)]
    ⟨0, ⟨1, [1, 2, 3, 4, 5, 6, 7, 8]⟩, (1, 2, 5, 6), []⟩ (by decide) (by decide)

/-- Claim C10: for a figure with a caption whose bounding regions are all
members of the caption's bounding-region list, the pipeline makes no region
call at all (no crop, no save, no description request), yet still invokes the
patcher with the empty accumulated description, so a matching placeholder's
figure body is replaced by the annotation with an empty description,
`<!-- FigureContent="" -->`. -/
theorem figure_fully_captioned_empty_patch {α : Type} [DecidableEq α] [Inhabited α]
    (describe : BoundingRegion α → List Char → List Char) (idx : Nat)
    (fig : Figure α) (cap : Caption α) (hcap : fig.caption = some cap)
    (hall : ∀ r ∈ fig.bounding_regions, r ∈ cap.bounding_regions) :
    (processFigure describe idx fig).2 = [] ∧
    (processFigure describe idx fig).1 = [] ∧
    ∀ (md : List Char) (s e : Nat),
      firstOccurFrom md (start_substring idx) 0 s →
      firstOccurFrom md end_substring (s + (start_substring idx).length) e →
      update_figure_description md (processFigure describe idx fig).1 idx =
        md.take (s + (start_substring idx).length) ++
          "<!-- FigureContent=\"\" -->".data ++ md.drop e := by
  have hpf : processFigure describe idx fig = ([], []) := by
    rw [processFigure, hcap]
    exact processRegionsWith_all_skipped describe idx cap.content
      cap.bounding_regions fig.bounding_regions hall
  refine ⟨by rw [hpf], by rw [hpf], ?_⟩
  intro md s e hs he
  rw [hpf]
  have h := update_figure_description_of_found md [] idx s e hs he
  rw [h]
  have hann : new_string [] = "<!-- FigureContent=\"\" -->".data := by decide
  rw [hann]

theorem figure_fully_captioned_empty_patch_witness :
    (processFigure (fun _ _ => ['D']) 0
        (⟨some ⟨"c".data, [⟨1, [0, 0, 1, 0, 1, 1, 0, 1]⟩]⟩,
          [⟨1, [0, 0, 1, 0, 1, 1, 0, 1]⟩]⟩ : Figure ℕ)).2 = [] ∧
    update_figure_description "![](figures/0)x</figure>".data
        (processFigure (fun _ _ => ['D']) 0
          (⟨some ⟨"c".data, [⟨1, [0, 0, 1, 0, 1, 1, 0, 1]⟩]⟩,
            [⟨1, [0, 0, 1, 0, 1, 1, 0, 1]⟩]⟩ : Figure ℕ)).1 0 =
      "![](figures/0)<!-- FigureContent=\"\" --></figure>".data := by
  have h := figure_fully_captioned_empty_patch (fun _ _ => ['D']) 0
    (⟨some ⟨"c".data, [⟨1, [0, 0, 1, 0, 1, 1, 0, 1]⟩]⟩,
      [⟨1, [0, 0, 1, 0, 1, 1, 0, 1]⟩]⟩ : Figure ℕ)
    ⟨"c".data, [⟨1, [0, 0, 1, 0, 1, 1, 0, 1]⟩]⟩ rfl (by decide)
  refine ⟨h.1, ?_⟩
  have h3 := h.2.2 "![](figures/0)x</figure>".data 0 15 (by decide) (by decide)
  rw [h3]
  decide
